import Mathlib

/-!
Verification of the seat-selection core: the adjacent-seat finder
(`seatFinder.ts`), the spatial keyboard navigator (`findNearestSeat` in
`SeatMap.tsx`) and the selection store (`useSelection.ts`).

JavaScript numbers are modelled by exact rationals (`ℚ`) where division
occurs and by integers (`ℤ`) for the integral fields (`col`, `priceTier`).
`Array.prototype.sort` with a numeric comparator is stable (ES2019); a
stable sort's output is uniquely determined by the input and the (total)
key order, so it is modelled by `List.insertionSort`, which is stable and
structurally recursive (hence evaluable by the kernel).
-/

/-- Seat status, `types.ts`. -/
inductive SeatStatus where
  | available | reserved | sold | held
deriving DecidableEq, Repr

/-- A seat, `types.ts`. -/
structure Seat where
  id : String
  col : ℤ
  x : ℚ
  y : ℚ
  priceTier : ℤ
  status : SeatStatus
  sectionId : String
  sectionLabel : String
  rowIndex : ℤ
deriving DecidableEq, Repr

/-- A row, `types.ts`. -/
structure Row where
  index : ℤ
  seats : List Seat
deriving DecidableEq, Repr

/-- Layout transform of a section (not consumed by the core). -/
structure SectionTransform where
  x : ℚ
  y : ℚ
  scale : ℚ
deriving DecidableEq, Repr

/-- A section, `types.ts`. `section` is a Lean keyword, hence `Sect`. -/
structure Sect where
  id : String
  label : String
  transform : SectionTransform
  rows : List Row
deriving DecidableEq, Repr

/-- Venue map dimensions (layout only). -/
structure VenueMap where
  width : ℚ
  height : ℚ
deriving DecidableEq, Repr

/-- A venue, `types.ts`. -/
structure Venue where
  venueId : String
  name : String
  map : VenueMap
  sections : List Sect
deriving DecidableEq, Repr

/-! ## Selection store (`useSelection.ts`) -/

/-- `toggleSeat` from `useSelection.ts`: no-op on a non-available seat;
remove the seat (by id) if already selected; otherwise append unless the
selection already holds 8 seats. -/
def toggleSeat (seat : Seat) (prev : List Seat) : List Seat :=
  if seat.status ≠ SeatStatus.available then prev
  else if prev.any (fun s => s.id = seat.id) then
    prev.filter (fun s => s.id ≠ seat.id)
  else if prev.length ≥ 8 then prev
  else prev ++ [seat]

/-- `clearSelection` from `useSelection.ts`: empties the selection. -/
def clearSelection (_prev : List Seat) : List Seat := []

/-- A user intent against the selection store. -/
inductive SelOp where
  | toggle (seat : Seat)
  | clear
deriving Repr

/-- Apply one store operation to the selection state. -/
def applySelOp (st : List Seat) : SelOp → List Seat
  | SelOp.toggle seat => toggleSeat seat st
  | SelOp.clear => clearSelection st

/-- Run a finite sequence of store operations from a starting state. -/
def runSelOps (st : List Seat) : List SelOp → List Seat
  | [] => st
  | op :: ops => runSelOps (applySelOp st op) ops

/-- Outcome of the `JSON.parse` platform builtin, abstracted: either a
parse failure, a JSON value that is an array (of seats, as the store
casts it), or a JSON value that is not an array. -/
inductive ParsedJson where
  | arr (seats : List Seat)
  | nonArray
deriving Repr

/-- `safeGetFromStorage` from `useSelection.ts`, parameterized by the
stored string under the key and by the `JSON.parse` builtin (`parse`;
`none` models a thrown `SyntaxError`).  Returns the recovered selection
(or `none`) and whether the corrupted entry was removed. A missing or
empty stored string is falsy in JS, so it returns `null` without
touching storage. -/
def safeGetFromStorage (stored : Option String) (parse : String → Option ParsedJson) :
    Option (List Seat) × Bool :=
  match stored with
  | none => (none, false)
  | some s =>
    if s = "" then (none, false)
    else
      match parse s with
      | none => (none, true)
      | some ParsedJson.nonArray => (none, true)
      | some (ParsedJson.arr seats) => (some seats, false)

/-- The store-initialization read effect of `useSelection` (lines 116–122):
read the persisted entry through `safeGetFromStorage`; a recovered list
becomes the initial selection, otherwise the selection stays empty.
Returns the initial selection together with the storage content under the
key after initialization. -/
def initSelection (stored : Option String) (parse : String → Option ParsedJson) :
    List Seat × Option String :=
  let r := safeGetFromStorage stored parse
  (r.1.getD [], if r.2 then none else stored)

/-! ## Adjacent-seat finder (`seatFinder.ts`) -/

/-- `candidate.every(seat => seat.status === 'available')`. -/
def allAvailable (cand : List Seat) : Bool :=
  cand.all (fun s => s.status = SeatStatus.available)

/-- `candidate.every((seat, idx) => idx === 0 || seat.col === candidate[idx-1].col + 1)`:
each seat's `col` is the previous seat's `col` plus one. -/
def consecutiveCols : List Seat → Bool
  | [] => true
  | [_] => true
  | a :: b :: rest => (b.col = a.col + 1) && consecutiveCols (b :: rest)

/-- The window of width `count` starting at position `i` of a seat list
(`sortedSeats.slice(i, i + count)`). -/
def windowAt (seats : List Seat) (i count : ℕ) : List Seat :=
  (seats.drop i).take count

/-- The per-window qualification test of `findConsecutiveInRow`: all seats
available and strictly consecutive `col` values. -/
def qualifies (sorted : List Seat) (count i : ℕ) : Bool :=
  allAvailable (windowAt sorted i count) && consecutiveCols (windowAt sorted i count)

/-- `findConsecutiveInRow` from `seatFinder.ts`: sort the row's seats by
ascending `col` (stable), scan windows of width `count` left to right and
return the first window whose seats are all available with consecutive
`col` values; `[]` when none qualifies.  The JS loop runs
`i = 0 .. length - count`, which `List.range (length + 1 - count)`
reproduces (no iterations when `length < count`). -/
def findConsecutiveInRow (seats : List Seat) (count : ℕ) : List Seat :=
  let sorted := List.insertionSort (fun a b => a.col ≤ b.col) seats
  match (List.range (sorted.length + 1 - count)).find? (qualifies sorted count) with
  | some i => windowAt sorted i count
  | none => []

/-- A scored candidate window (`AdjacentSeatsResult` in `seatFinder.ts`);
`section` is a Lean keyword, hence the field name `sect`. -/
structure AdjacentSeatsResult where
  seats : List Seat
  sect : Sect
  row : Row
  score : ℚ
deriving DecidableEq, Repr

/-- `consecutiveSeats.reduce((sum, seat) => sum + seat.priceTier, 0) / count`:
mean price tier of the window. -/
def windowScore (cand : List Seat) (count : ℕ) : ℚ :=
  (cand.foldl (fun sum seat => sum + (seat.priceTier : ℚ)) 0) / (count : ℚ)

/-- The candidate-collection loop of `findAdjacentSeats`: for every section
and every row (in order), skip rows with fewer seats than `count`, take the
row's first qualifying window and score it by mean price tier. -/
def resultsFor (venue : Venue) (count : ℕ) : List AdjacentSeatsResult :=
  venue.sections.flatMap fun sect =>
    sect.rows.filterMap fun row =>
      if row.seats.length < count then none
      else
        let consecutiveSeats := findConsecutiveInRow row.seats count
        if consecutiveSeats.length > 0 then
          some ⟨consecutiveSeats, sect, row, windowScore consecutiveSeats count⟩
        else none

/-- `findAdjacentSeats` from `seatFinder.ts`.  Throws (models as `.error`)
when `count` is outside `[2,8]`; otherwise collects the per-row candidates,
returns `null` when there are none, else sorts them stably by ascending
score (`results.sort((a, b) => a.score - b.score)`, stable per ES2019) and
returns the seats of the first. -/
def findAdjacentSeats (venue : Venue) (count : ℤ) :
    Except String (Option (List Seat)) :=
  if count < 2 ∨ count > 8 then Except.error "Count must be between 2 and 8"
  else
    let results := resultsFor venue count.toNat
    if results.length = 0 then Except.ok none
    else
      let sorted := List.insertionSort (fun a b => a.score ≤ b.score) results
      Except.ok (sorted.head?.map (·.seats))

/-- `FindAdjacentOptions` from `seatFinder.ts`. -/
structure FindAdjacentOptions where
  preferredSection : Option String := none
  preferredPriceTier : Option ℚ := none
  preferCenter : Bool := false
deriving Repr

/-- JS truthiness of the optional `preferredSection` string: present and
non-empty. -/
def sectionPrefActive (options : FindAdjacentOptions) : Bool :=
  options.preferredSection.getD "" ≠ ""

/-- JS truthiness of the optional `preferredPriceTier` number: present and
non-zero. -/
def tierPrefActive (options : FindAdjacentOptions) : Bool :=
  options.preferredPriceTier.getD 0 ≠ 0

/-- The candidate-collection loop of `findAdjacentSeatsWithPreferences`:
additionally skips sections other than a requested `preferredSection`, and
adds the price-tier and row-center penalties to the base score.  The window
is non-empty in the scored branch, so its first and last seats are taken by
pattern match. -/
def resultsForWithPrefs (venue : Venue) (count : ℕ) (options : FindAdjacentOptions) :
    List AdjacentSeatsResult :=
  venue.sections.flatMap fun sect =>
    if sectionPrefActive options ∧ sect.id ≠ options.preferredSection.getD "" then []
    else
      sect.rows.filterMap fun row =>
        if row.seats.length < count then none
        else
          let consecutiveSeats := findConsecutiveInRow row.seats count
          match consecutiveSeats, consecutiveSeats.getLast? with
          | firstSeat :: rest, some lastSeat =>
            let base := windowScore (firstSeat :: rest) count
            let afterTier :=
              if tierPrefActive options then
                base + |base - options.preferredPriceTier.getD 0| * (1 / 2)
              else base
            let afterCenter :=
              if options.preferCenter then
                let rowCenter : ℚ := (row.seats.length : ℚ) / 2
                let groupCenter : ℚ := ((firstSeat.col : ℚ) + (lastSeat.col : ℚ)) / 2
                afterTier + |groupCenter - rowCenter| * (1 / 10)
              else afterTier
            some ⟨firstSeat :: rest, sect, row, afterCenter⟩
          | _, _ => none

/-- `findAdjacentSeatsWithPreferences` from `seatFinder.ts`: same contract
as `findAdjacentSeats`, with preference-weighted scores. -/
def findAdjacentSeatsWithPreferences (venue : Venue) (count : ℤ)
    (options : FindAdjacentOptions) : Except String (Option (List Seat)) :=
  if count < 2 ∨ count > 8 then Except.error "Count must be between 2 and 8"
  else
    let results := resultsForWithPrefs venue count.toNat options
    if results.length = 0 then Except.ok none
    else
      let sorted := List.insertionSort (fun a b => a.score ≤ b.score) results
      Except.ok (sorted.head?.map (·.seats))

/-- A row contains a qualifying window of width `count`: some window of its
col-sorted seats is all-available with consecutive cols.  (Used to state
the not-found characterization.) -/
def hasQualifyingWindow (seats : List Seat) (count : ℕ) : Prop :=
  ∃ i, i + count ≤ seats.length ∧
    qualifies (List.insertionSort (fun a b => a.col ≤ b.col) seats) count i = true

instance (seats : List Seat) (count : ℕ) : Decidable (hasQualifyingWindow seats count) :=
  decidable_of_iff
    (∃ i < seats.length + 1 - count,
      qualifies (List.insertionSort (fun a b => a.col ≤ b.col) seats) count i = true)
    (by
      constructor
      · rintro ⟨i, hi, hq⟩
        exact ⟨i, by omega, hq⟩
      · rintro ⟨i, hi, hq⟩
        exact ⟨i, by omega, hq⟩)

/-! ## Seat index and spatial navigator (`SeatMap.tsx`) -/

/-- `venue.sections.flatMap(s => s.rows.flatMap(r => r.seats))`: the
flattening order (section-major, row-major, seat source order). -/
def flattenSeats (v : Venue) : List Seat :=
  v.sections.flatMap fun s => s.rows.flatMap fun r => r.seats

/-- The `seatMap` lookup: seat id → (seat, flattening-order index).
`Map.set` overwrites, so for a duplicated id the last occurrence wins,
which `getLast?` over the filtered enumeration reproduces. -/
def seatMapGet (v : Venue) (sid : String) : Option (Seat × ℕ) :=
  ((((flattenSeats v).enum).filter fun p => p.2.id == sid).getLast?).map
    fun p => (p.2, p.1)

/-- One pixel-row of the `seatGrid`: the seats whose `y` equals the key, in
flattening order (JS pushes while traversing), then stably sorted by
ascending `x` (`row.sort((a, b) => a.x - b.x)`). -/
def gridRow (v : Venue) (y : ℚ) : List Seat :=
  List.insertionSort (fun a b => a.x ≤ b.x)
    ((flattenSeats v).filter fun s => decide (s.y = y))

/-- `sortedYCoords`: the distinct `y` keys of the grid sorted ascending
(`Array.from(grid.keys()).sort((a, b) => a - b)`; insertion order of the
keys is irrelevant after the numeric sort). -/
def sortedYCoords (v : Venue) : List ℚ :=
  List.insertionSort (· ≤ ·) (((flattenSeats v).map (·.y)).dedup)

/-- A navigation direction. -/
inductive Dir where
  | up | down | left | right
deriving DecidableEq, Repr

/-- `Array.prototype.findIndex` / `indexOf`: index of the first match, `-1`
when absent. -/
def jsFindIndex (p : α → Bool) (l : List α) : ℤ :=
  match l.findIdx? p with
  | some i => (i : ℤ)
  | none => -1

/-- The reducer callback `(closest, seat) => Math.abs(seat.x - currentX) <
Math.abs(closest.x - currentX) ? seat : closest`. -/
def pickCloser (x0 : ℚ) (closest seat : Seat) : Seat :=
  if |seat.x - x0| < |closest.x - x0| then seat else closest

/-- `row.reduce((closest, seat) => |seat.x - x0| < |closest.x - x0| ? seat
: closest)`: no initial value, so JS throws on an empty row — modelled as
`none`, which never occurs since grid rows are non-empty. -/
def reduceClosest (x0 : ℚ) : List Seat → Option Seat
  | [] => none
  | h :: t => some (t.foldl (pickCloser x0) h)

/-- `seatMap.get(id)?.index ?? focusedSeatIndex`. -/
def idxOrFocused (v : Venue) (sid : String) (focused : ℕ) : ℕ :=
  match seatMapGet v sid with
  | some p => p.2
  | none => focused

/-- `findNearestSeat` from `SeatMap.tsx` (lines 92–168).  Out-of-range JS
index accesses cannot occur on the taken branches (guarded by the
preceding comparisons); they fall back to `focusedSeatIndex` here. -/
def findNearestSeat (v : Venue) (focusedSeatIndex : ℕ) (currentSeat : Seat)
    (direction : Dir) : ℕ :=
  let currentY := currentSeat.y
  let currentX := currentSeat.x
  let currentRow := gridRow v currentY
  match direction with
  | Dir.left =>
    let currentIndex : ℤ := jsFindIndex (fun s => s.id == currentSeat.id) currentRow
    if currentIndex > 0 then
      match currentRow[(currentIndex - 1).toNat]? with
      | some prevSeat => idxOrFocused v prevSeat.id focusedSeatIndex
      | none => focusedSeatIndex
    else if currentRow.length > 0 then
      match currentRow.getLast? with
      | some lastSeat => idxOrFocused v lastSeat.id focusedSeatIndex
      | none => focusedSeatIndex
    else focusedSeatIndex
  | Dir.right =>
    let currentIndex : ℤ := jsFindIndex (fun s => s.id == currentSeat.id) currentRow
    if currentIndex < (currentRow.length : ℤ) - 1 then
      match currentRow[(currentIndex + 1).toNat]? with
      | some nextSeat => idxOrFocused v nextSeat.id focusedSeatIndex
      | none => focusedSeatIndex
    else if currentRow.length > 0 then
      match currentRow.head? with
      | some firstSeat => idxOrFocused v firstSeat.id focusedSeatIndex
      | none => focusedSeatIndex
    else focusedSeatIndex
  | Dir.up =>
    let ys := sortedYCoords v
    let currentYIndex : ℤ := jsFindIndex (fun yy => decide (yy = currentY)) ys
    if currentYIndex > 0 then
      match ys[(currentYIndex - 1).toNat]? with
      | some prevY =>
        match reduceClosest currentX (gridRow v prevY) with
        | some closestSeat => idxOrFocused v closestSeat.id focusedSeatIndex
        | none => focusedSeatIndex
      | none => focusedSeatIndex
    else if ys.length > 0 then
      match ys.getLast? with
      | some lastY =>
        match reduceClosest currentX (gridRow v lastY) with
        | some closestSeat => idxOrFocused v closestSeat.id focusedSeatIndex
        | none => focusedSeatIndex
      | none => focusedSeatIndex
    else focusedSeatIndex
  | Dir.down =>
    let ys := sortedYCoords v
    let currentYIndex : ℤ := jsFindIndex (fun yy => decide (yy = currentY)) ys
    if currentYIndex < (ys.length : ℤ) - 1 then
      match ys[(currentYIndex + 1).toNat]? with
      | some nextY =>
        match reduceClosest currentX (gridRow v nextY) with
        | some closestSeat => idxOrFocused v closestSeat.id focusedSeatIndex
        | none => focusedSeatIndex
      | none => focusedSeatIndex
    else if ys.length > 0 then
      match ys.head? with
      | some firstY =>
        match reduceClosest currentX (gridRow v firstY) with
        | some closestSeat => idxOrFocused v closestSeat.id focusedSeatIndex
        | none => focusedSeatIndex
      | none => focusedSeatIndex
    else focusedSeatIndex

/-- Spec-side: the first seat of `row` whose distance to `x0` is minimal
(ties won by the seat encountered first in a linear scan). -/
def firstNearestByX (x0 : ℚ) (row : List Seat) : Option Seat :=
  row.find? fun t => row.all fun u => decide (|t.x - x0| ≤ |u.x - x0|)

/-- Spec-side: the destination seat of a navigator move, phrased as the
spec describes it — previous/next within the pixel-row with wraparound by
modular index arithmetic for `left`/`right`; adjacent pixel-row in
ascending `sortedYCoords` order with wraparound, then nearest-`x` seat,
for `up`/`down`. -/
def specNavTarget (v : Venue) (s : Seat) (d : Dir) : Option Seat :=
  let row := gridRow v s.y
  match d with
  | Dir.left =>
    (row.findIdx? fun t => t.id == s.id).bind fun i =>
      row[(i + row.length - 1) % row.length]?
  | Dir.right =>
    (row.findIdx? fun t => t.id == s.id).bind fun i =>
      row[(i + 1) % row.length]?
  | Dir.up =>
    let ys := sortedYCoords v
    (ys.findIdx? fun yy => decide (yy = s.y)).bind fun j =>
      (ys[(j + ys.length - 1) % ys.length]?).bind fun y' =>
        firstNearestByX s.x (gridRow v y')
  | Dir.down =>
    let ys := sortedYCoords v
    (ys.findIdx? fun yy => decide (yy = s.y)).bind fun j =>
      (ys[(j + 1) % ys.length]?).bind fun y' =>
        firstNearestByX s.x (gridRow v y')

/-- The flattening-order index of a seat (position of its first occurrence
in the flattened seat list). -/
def flattenIndexOf (v : Venue) (t : Seat) : ℕ :=
  (flattenSeats v).indexOf t

/-! ## Concrete fixtures used by witnesses and counterexamples -/

def seatA : Seat := ⟨"a", 1, 20, 100, 5, SeatStatus.available, "section-1", "Section 1", 1⟩
def seatB : Seat := ⟨"b", 2, 40, 100, 5, SeatStatus.available, "section-1", "Section 1", 1⟩
def seatC : Seat := ⟨"c", 3, 60, 100, 1, SeatStatus.sold, "section-1", "Section 1", 1⟩
def seatD : Seat := ⟨"d", 4, 80, 100, 1, SeatStatus.available, "section-1", "Section 1", 1⟩
def seatE : Seat := ⟨"e", 5, 100, 100, 1, SeatStatus.available, "section-1", "Section 1", 1⟩

/-- One row with two qualifying windows of width 2: cols 1–2 (tier 5) and
cols 4–5 (tier 1), separated by a sold seat at col 3. -/
def rowGap : Row := ⟨1, [seatA, seatB, seatC, seatD, seatE]⟩
def sectGap : Sect := ⟨"section-1", "Section 1", ⟨0, 0, 1⟩, [rowGap]⟩
def venueGap : Venue := ⟨"v1", "Venue 1", ⟨800, 600⟩, [sectGap]⟩

/-- An available seat with the given id, column and abscissa. -/
def mkAvail (sid : String) (col : ℤ) (x : ℚ) : Seat :=
  ⟨sid, col, x, 100, 1, SeatStatus.available, "section-1", "Section 1", 1⟩

def eightSeats : List Seat :=
  [mkAvail "t1" 1 20, mkAvail "t2" 2 40, mkAvail "t3" 3 60, mkAvail "t4" 4 80,
   mkAvail "t5" 5 100, mkAvail "t6" 6 120, mkAvail "t7" 7 140, mkAvail "t8" 8 160]

def seatNine : Seat := mkAvail "t9" 9 180

/-- A 2×2 pixel grid for navigator tests. -/
def seatN1 : Seat := ⟨"n1", 1, 0, 0, 1, SeatStatus.available, "sec", "S", 1⟩
def seatN2 : Seat := ⟨"n2", 2, 10, 0, 1, SeatStatus.available, "sec", "S", 1⟩
def seatN3 : Seat := ⟨"n3", 1, 0, 10, 1, SeatStatus.available, "sec", "S", 2⟩
def seatN4 : Seat := ⟨"n4", 2, 10, 10, 1, SeatStatus.available, "sec", "S", 2⟩

def venueNav : Venue :=
  ⟨"v2", "Venue 2", ⟨100, 100⟩,
    [⟨"sec", "S", ⟨0, 0, 1⟩, [⟨1, [seatN1, seatN2]⟩, ⟨2, [seatN3, seatN4]⟩]⟩]⟩

/-- A `JSON.parse` that always throws. -/
def parseAlwaysFails : String → Option ParsedJson := fun _ => none

/-- The candidate that `resultsFor venueGap 2` collects. -/
def resGapEx : AdjacentSeatsResult :=
  ⟨[seatA, seatB], sectGap, rowGap, windowScore [seatA, seatB] 2⟩

/-- The candidate that `resultsForWithPrefs venueGap 2` collects under
`preferCenter`. -/
def resCenterEx : AdjacentSeatsResult :=
  ⟨[seatA, seatB], sectGap, rowGap,
    windowScore [seatA, seatB] 2 +
      |((seatA.col : ℚ) + (seatB.col : ℚ)) / 2 - (rowGap.seats.length : ℚ) / 2| * (1 / 10)⟩

/-! ## Selection store: helper lemmas -/

theorem toggleSeat_length_le (s : Seat) (st : List Seat) (h : st.length ≤ 8) :
    (toggleSeat s st).length ≤ 8 := by
  unfold toggleSeat
  split_ifs with h1 h2 h3
  · exact h
  · exact le_trans (List.length_filter_le _ _) h
  · exact h
  · simp only [List.length_append, List.length_cons, List.length_nil]
    omega

theorem toggleSeat_nodup_ids (s : Seat) (st : List Seat)
    (h : (st.map Seat.id).Nodup) : ((toggleSeat s st).map Seat.id).Nodup := by
  unfold toggleSeat
  split_ifs with h1 h2 h3
  · exact h
  · exact h.sublist ((List.filter_sublist st).map Seat.id)
  · exact h
  · rw [List.map_append]
    refine h.append (List.nodup_singleton s.id) ?_
    intro a ha hb
    simp only [List.map_cons, List.map_nil, List.mem_singleton] at hb
    simp only [List.mem_map] at ha
    obtain ⟨t, ht, rfl⟩ := ha
    rw [List.any_eq_true] at h2
    exact h2 ⟨t, ht, by simp [hb]⟩

/-! ## Claim theorems: selection store -/

/-- C3: starting from any selection of size at most 8, every finite
sequence of `toggleSeat`/`clearSelection` operations keeps the selection's
size at most 8; in particular, with 8 seats selected, toggling a 9th
available non-member seat leaves the selection unchanged. -/
theorem selection_cap_invariant (st : List Seat) (ops : List SelOp) (s : Seat)
    (hle : st.length ≤ 8) :
    (runSelOps st ops).length ≤ 8 ∧
      (st.length = 8 → s.status = SeatStatus.available →
        (∀ t ∈ st, t.id ≠ s.id) → toggleSeat s st = st) := by
  constructor
  · induction ops generalizing st with
    | nil => exact hle
    | cons op ops ih =>
      cases op with
      | toggle t => exact ih _ (toggleSeat_length_le t st hle)
      | clear => exact ih (clearSelection st) (by simp [clearSelection])
  · intro h8 hav hnm
    have h1 : ¬ s.status ≠ SeatStatus.available := by simp [hav]
    have h2 : ¬ st.any (fun t => t.id = s.id) = true := by
      rw [List.any_eq_true]
      rintro ⟨t, ht, hts⟩
      exact hnm t ht (by simpa using hts)
    rw [toggleSeat, if_neg h1, if_neg h2, if_pos (by omega)]

theorem selection_cap_invariant_witness :
    (runSelOps eightSeats [SelOp.toggle seatNine]).length ≤ 8 ∧
      (eightSeats.length = 8 → seatNine.status = SeatStatus.available →
        (∀ t ∈ eightSeats, t.id ≠ seatNine.id) → toggleSeat seatNine eightSeats = eightSeats) :=
  selection_cap_invariant eightSeats [SelOp.toggle seatNine] seatNine (by decide)

/-- C10: starting from the empty selection, after any finite sequence of
`toggleSeat`/`clearSelection` operations the selected seats have pairwise
distinct ids. -/
theorem selection_nodup_ids (ops : List SelOp) :
    ((runSelOps [] ops).map Seat.id).Nodup := by
  have main : ∀ (ops : List SelOp) (st : List Seat),
      (st.map Seat.id).Nodup → ((runSelOps st ops).map Seat.id).Nodup := by
    intro ops
    induction ops with
    | nil => intro st h; exact h
    | cons op ops ih =>
      intro st h
      cases op with
      | toggle s => exact ih _ (toggleSeat_nodup_ids s st h)
      | clear => exact ih (clearSelection st) (by simp [clearSelection])
  exact main ops [] (by simp)

/-- C8 counterexample: toggling an available member seat twice does not
restore the prior ordered state — the seat is re-appended at the end
(`[A, B]` becomes `[B, A]`). -/
theorem toggle_roundtrip_counterexample :
    ¬ (toggleSeat seatA (toggleSeat seatA [seatA, seatB]) = [seatA, seatB]) := by decide

/-- C8 amended: for an available seat and a well-formed selection (distinct
ids, the member carrying the seat's id being the seat itself, size at most
8), toggling twice preserves the selection's size and membership, and
restores the exact ordered state when the seat was not a member. -/
theorem toggle_roundtrip_amended (s : Seat) (st : List Seat)
    (hav : s.status = SeatStatus.available)
    (hnd : (st.map Seat.id).Nodup)
    (hid : ∀ t ∈ st, t.id = s.id → t = s)
    (hle : st.length ≤ 8) :
    (toggleSeat s (toggleSeat s st)).length = st.length ∧
      (∀ x, x ∈ toggleSeat s (toggleSeat s st) ↔ x ∈ st) ∧
      ((∀ t ∈ st, t.id ≠ s.id) → toggleSeat s (toggleSeat s st) = st) := by
  have hstat : ¬ s.status ≠ SeatStatus.available := by simp [hav]
  have hpred : ∀ (l : List Seat), (∀ x ∈ l, x.id ≠ s.id) →
      l.filter (fun x => x.id ≠ s.id) = l := fun l h =>
    List.filter_eq_self.mpr (fun x hx => by simpa using h x hx)
  by_cases hm : st.any (fun t => t.id = s.id) = true
  · -- s is a member (by id, hence by value via hid)
    rw [List.any_eq_true] at hm
    obtain ⟨t, ht, hts⟩ := hm
    have hts' : t.id = s.id := by simpa using hts
    have hst : s ∈ st := hid t ht hts' ▸ ht
    obtain ⟨l1, l2, rfl⟩ := List.append_of_mem hst
    have hnd' := hnd
    rw [List.map_append, List.map_cons, List.nodup_append] at hnd'
    have hs_notin1 : s.id ∉ l1.map Seat.id :=
      fun hmem => hnd'.2.2 hmem (List.mem_cons_self _ _)
    have hs_notin2 : s.id ∉ l2.map Seat.id := (List.nodup_cons.mp hnd'.2.1).1
    have hfil : (l1 ++ s :: l2).filter (fun x => x.id ≠ s.id) = l1 ++ l2 := by
      rw [List.filter_append, List.filter_cons,
        hpred l1 (fun x hx hxe => hs_notin1 (hxe ▸ List.mem_map_of_mem Seat.id hx)),
        hpred l2 (fun x hx hxe => hs_notin2 (hxe ▸ List.mem_map_of_mem Seat.id hx))]
      simp
    have htog1 : toggleSeat s (l1 ++ s :: l2) = l1 ++ l2 := by
      rw [toggleSeat, if_neg hstat, if_pos (by
        rw [List.any_eq_true]; exact ⟨s, hst, by simp⟩)]
      exact hfil
    have hnotin2 : ¬ (l1 ++ l2).any (fun t => t.id = s.id) = true := by
      rw [List.any_eq_true]
      rintro ⟨u, hu, hus⟩
      have hus' : u.id = s.id := by simpa using hus
      rcases List.mem_append.mp hu with h | h
      · exact hs_notin1 (hus' ▸ List.mem_map_of_mem Seat.id h)
      · exact hs_notin2 (hus' ▸ List.mem_map_of_mem Seat.id h)
    have htog2 : toggleSeat s (l1 ++ l2) = (l1 ++ l2) ++ [s] := by
      rw [toggleSeat, if_neg hstat, if_neg hnotin2, if_neg (by
        simp only [List.length_append, List.length_cons] at hle ⊢
        omega)]
    rw [htog1, htog2]
    refine ⟨by simp +arith, fun x => by simp; tauto, fun hno => ?_⟩
    exact absurd rfl (hno s hst)
  · -- s is not a member
    have hnomem : ∀ x ∈ st, x.id ≠ s.id := by
      intro x hx hxe
      rw [List.any_eq_true] at hm
      exact hm ⟨x, hx, by simp [hxe]⟩
    by_cases hfull : st.length ≥ 8
    · have htog : toggleSeat s st = st := by
        rw [toggleSeat, if_neg hstat, if_neg hm, if_pos hfull]
      rw [htog, htog]
      exact ⟨rfl, fun _ => Iff.rfl, fun _ => rfl⟩
    · have htog1 : toggleSeat s st = st ++ [s] := by
        rw [toggleSeat, if_neg hstat, if_neg hm, if_neg hfull]
      have hany2 : (st ++ [s]).any (fun t => t.id = s.id) = true := by
        rw [List.any_eq_true]
        exact ⟨s, by simp, by simp⟩
      have hfil2 : (st ++ [s]).filter (fun x => x.id ≠ s.id) = st := by
        rw [List.filter_append, List.filter_cons, hpred st hnomem]
        simp
      have htog2 : toggleSeat s (st ++ [s]) = st := by
        rw [toggleSeat, if_neg hstat, if_pos hany2]
        exact hfil2
      rw [htog1, htog2]
      exact ⟨rfl, fun _ => Iff.rfl, fun _ => rfl⟩

theorem toggle_roundtrip_amended_witness :
    (toggleSeat seatD (toggleSeat seatD [seatA, seatB])).length = [seatA, seatB].length ∧
      (∀ x, x ∈ toggleSeat seatD (toggleSeat seatD [seatA, seatB]) ↔ x ∈ [seatA, seatB]) ∧
      ((∀ t ∈ [seatA, seatB], t.id ≠ seatD.id) →
        toggleSeat seatD (toggleSeat seatD [seatA, seatB]) = [seatA, seatB]) :=
  toggle_roundtrip_amended seatD [seatA, seatB] (by decide) (by decide) (by decide) (by decide)

/-- C9: if the persisted entry is present and non-empty but fails to parse
as JSON or parses to a non-array value, store initialization yields the
empty selection and removes the corrupted entry from storage. -/
theorem corrupted_storage_recovery (s : String) (parse : String → Option ParsedJson)
    (hne : s ≠ "")
    (hbad : parse s = none ∨ parse s = some ParsedJson.nonArray) :
    initSelection (some s) parse = ([], none) := by
  rcases hbad with h | h <;> simp [initSelection, safeGetFromStorage, hne, h]

theorem corrupted_storage_recovery_witness :
    initSelection (some "not-json") parseAlwaysFails = ([], none) :=
  corrupted_storage_recovery "not-json" parseAlwaysFails (by decide) (Or.inl rfl)

/-! ## Adjacent-seat finder: helper lemmas -/

theorem consecutiveCols_chain : ∀ l : List Seat,
    consecutiveCols l = true ↔ List.Chain' (fun a b => b.col = a.col + 1) l
  | [] => by simp [consecutiveCols]
  | [_] => by simp [consecutiveCols]
  | a :: b :: rest => by
    rw [consecutiveCols, Bool.and_eq_true, List.chain'_cons,
      consecutiveCols_chain (b :: rest)]
    simp

theorem windowAt_length (seats : List Seat) (i count : ℕ) (h : i + count ≤ seats.length) :
    (windowAt seats i count).length = count := by
  simp only [windowAt, List.length_take, List.length_drop]
  omega

theorem find?_range_first (p : ℕ → Bool) (n i : ℕ)
    (h : (List.range n).find? p = some i) : p i = true ∧ ∀ j < i, p j = false := by
  induction n with
  | zero => simp at h
  | succ n ih =>
    rw [List.range_succ, List.find?_append] at h
    cases hn : (List.range n).find? p with
    | some k =>
      rw [hn] at h
      rw [Option.or_some] at h
      obtain rfl := Option.some.inj h
      exact ih hn
    | none =>
      rw [hn] at h
      have hall := List.find?_eq_none.mp hn
      simp only [Option.none_or] at h
      by_cases hp : p n
      · have : i = n := by
          rw [List.find?_cons_of_pos _ hp] at h
          exact (Option.some.inj h).symm
        subst this
        refine ⟨hp, fun j hj => ?_⟩
        have := hall j (List.mem_range.mpr hj)
        simpa using this
      · rw [List.find?_cons_of_neg _ (by simpa using hp), List.find?_nil] at h
        simp at h

theorem findConsecutiveInRow_eq (seats : List Seat) (count : ℕ) :
    findConsecutiveInRow seats count =
      match (List.range ((List.insertionSort (fun a b => a.col ≤ b.col) seats).length + 1 - count)).find?
          (qualifies (List.insertionSort (fun a b => a.col ≤ b.col) seats) count) with
      | some i => windowAt (List.insertionSort (fun a b => a.col ≤ b.col) seats) i count
      | none => [] := rfl

theorem findConsecutiveInRow_spec (seats : List Seat) (count : ℕ) (w : List Seat)
    (h : findConsecutiveInRow seats count = w) (hw : w ≠ []) :
    ∃ i, w = windowAt (List.insertionSort (fun a b => a.col ≤ b.col) seats) i count ∧
      qualifies (List.insertionSort (fun a b => a.col ≤ b.col) seats) count i = true ∧
      i + count ≤ seats.length ∧
      ∀ j < i, qualifies (List.insertionSort (fun a b => a.col ≤ b.col) seats) count j = false := by
  rw [findConsecutiveInRow_eq] at h
  set sorted := List.insertionSort (fun a b => a.col ≤ b.col) seats with hsorted
  have hlen : sorted.length = seats.length := (List.perm_insertionSort _ seats).length_eq
  cases hfind : (List.range (sorted.length + 1 - count)).find? (qualifies sorted count) with
  | none =>
    rw [hfind] at h
    exact absurd h.symm hw
  | some i =>
    rw [hfind] at h
    refine ⟨i, h.symm, List.find?_some hfind, ?_, ?_⟩
    · have := List.mem_range.mp (List.mem_of_find?_eq_some hfind)
      omega
    · exact (find?_range_first (qualifies sorted count) _ i hfind).2

theorem findConsecutiveInRow_ne_nil_iff (seats : List Seat) (count : ℕ) (hc : 0 < count) :
    findConsecutiveInRow seats count ≠ [] ↔ hasQualifyingWindow seats count := by
  constructor
  · intro hne
    obtain ⟨i, _, hq, hb, _⟩ := findConsecutiveInRow_spec seats count _ rfl hne
    exact ⟨i, hb, hq⟩
  · rintro ⟨i, hb, hq⟩
    rw [findConsecutiveInRow_eq]
    set sorted := List.insertionSort (fun a b => a.col ≤ b.col) seats with hsorted
    have hlen : sorted.length = seats.length := (List.perm_insertionSort _ seats).length_eq
    cases hfind : (List.range (sorted.length + 1 - count)).find? (qualifies sorted count) with
    | none =>
      rw [List.find?_eq_none] at hfind
      exact absurd hq (by simpa using hfind i (List.mem_range.mpr (by omega)))
    | some j =>
      have hjb : j + count ≤ sorted.length := by
        have := List.mem_range.mp (List.mem_of_find?_eq_some hfind)
        omega
      have hwl : (windowAt sorted j count).length = count := windowAt_length sorted j count hjb
      intro hnil
      have hnil' : windowAt sorted j count = [] := hnil
      rw [hnil'] at hwl
      simp at hwl
      omega

theorem mem_resultsFor {venue : Venue} {count : ℕ} {r : AdjacentSeatsResult}
    (h : r ∈ resultsFor venue count) :
    r.sect ∈ venue.sections ∧ r.row ∈ r.sect.rows ∧
      count ≤ r.row.seats.length ∧
      r.seats = findConsecutiveInRow r.row.seats count ∧
      r.seats ≠ [] ∧
      r.score = windowScore r.seats count := by
  unfold resultsFor at h
  rw [List.mem_flatMap] at h
  obtain ⟨sect, hsect, h⟩ := h
  rw [List.mem_filterMap] at h
  obtain ⟨row, hrow, hf⟩ := h
  by_cases hlen : row.seats.length < count
  · rw [if_pos hlen] at hf
    exact absurd hf (by simp)
  rw [if_neg hlen] at hf
  simp only at hf
  by_cases hne : (findConsecutiveInRow row.seats count).length > 0
  · rw [if_pos hne] at hf
    obtain rfl := Option.some.inj hf
    refine ⟨hsect, hrow, show count ≤ row.seats.length by omega, rfl, ?_, rfl⟩
    intro hnil
    have hnil' : findConsecutiveInRow row.seats count = [] := hnil
    rw [hnil'] at hne
    simp at hne
  · rw [if_neg hne] at hf
    exact absurd hf (by simp)

/-- The head of a stable insertion sort is the first element of the input
attaining the minimal key: it is a member, it is `r`-below every member,
and every element occurring before it in the input is strictly above it. -/
theorem insertionSort_head_spec {α : Type} (r : α → α → Prop) [DecidableRel r]
    (total : ∀ a b, r a b ∨ r b a) (htrans : ∀ a b c, r a b → r b c → r a c) :
    ∀ (l : List α) (b : α), (List.insertionSort r l).head? = some b →
      b ∈ l ∧ (∀ x ∈ l, r b x) ∧ ∃ l1 l2, l = l1 ++ b :: l2 ∧ ∀ x ∈ l1, ¬ r x b
  | [], b => by simp [List.insertionSort]
  | a :: l, b => by
    intro hb
    rw [List.insertionSort] at hb
    cases hs : List.insertionSort r l with
    | nil =>
      have hl : l = [] := by
        have hp := List.perm_insertionSort r l
        rw [hs] at hp
        exact hp.symm.eq_nil
      subst hl
      rw [hs] at hb
      simp only [List.orderedInsert, List.head?_cons, Option.some.injEq] at hb
      refine ⟨by simp [hb], ?_, [], [], by rw [hb]; rfl, by simp⟩
      intro x hx
      simp only [List.mem_singleton] at hx
      rw [← hb, hx]
      exact (total a a).elim id id
    | cons c s' =>
      rw [hs] at hb
      obtain ⟨hcmem, hcmin, l1, l2, hdec, hfirst⟩ :=
        insertionSort_head_spec r total htrans l c (by rw [hs]; rfl)
      by_cases hac : r a c
      · rw [List.orderedInsert, if_pos hac] at hb
        simp only [List.head?_cons, Option.some.injEq] at hb
        refine ⟨by simp [hb], ?_, [], l, by rw [hb]; rfl, by simp⟩
        intro x hx
        rw [← hb]
        rcases List.mem_cons.mp hx with h | hx'
        · rw [h]
          exact (total a a).elim id id
        · exact htrans a c x hac (hcmin x hx')
      · rw [List.orderedInsert, if_neg hac] at hb
        simp only [List.head?_cons, Option.some.injEq] at hb
        refine ⟨by rw [← hb]; exact List.mem_cons_of_mem a hcmem, ?_,
          a :: l1, l2, by rw [← hb, hdec]; rfl, ?_⟩
        · intro x hx
          rw [← hb]
          rcases List.mem_cons.mp hx with h | hx'
          · rw [h]
            exact (total a c).elim (fun hh => absurd hh hac) id
          · exact hcmin x hx'
        · intro x hx
          rw [← hb]
          rcases List.mem_cons.mp hx with h | hx'
          · rw [h]
            exact hac
          · exact hfirst x hx'

/-! ## Claim theorems: adjacent-seat finder -/

/-- C1: whenever `findAdjacentSeats` returns a seat list for a count in
[2,8], the list has exactly `count` seats, every seat is available, and
consecutive seats' `col` values increase by exactly one (hence the list is
ordered by strictly ascending `col`). -/
theorem adjacent_result_shape (venue : Venue) (count : ℤ) (res : List Seat)
    (h2 : 2 ≤ count) (h8 : count ≤ 8)
    (hres : findAdjacentSeats venue count = Except.ok (some res)) :
    res.length = count.toNat ∧ (∀ t ∈ res, t.status = SeatStatus.available) ∧
      List.Chain' (fun a b => b.col = a.col + 1) res ∧
      List.Chain' (fun a b => a.col < b.col) res := by
  unfold findAdjacentSeats at hres
  rw [if_neg (by omega)] at hres
  by_cases hz : (resultsFor venue count.toNat).length = 0
  · rw [if_pos hz] at hres
    simp at hres
  rw [if_neg hz] at hres
  simp only [Except.ok.injEq] at hres
  rw [Option.map_eq_some'] at hres
  obtain ⟨cand, hhead, hseats⟩ := hres
  have hmem : cand ∈ resultsFor venue count.toNat := by
    have h1 : cand ∈ List.insertionSort (fun a b => a.score ≤ b.score)
        (resultsFor venue count.toNat) := List.mem_of_mem_head? hhead
    exact (List.perm_insertionSort _ _).subset h1
  obtain ⟨_, _, _, hfc, hne, _⟩ := mem_resultsFor hmem
  obtain ⟨i, hwin, hq, hbound, _⟩ :=
    findConsecutiveInRow_spec cand.row.seats count.toNat cand.seats hfc.symm hne
  rw [qualifies, Bool.and_eq_true] at hq
  have hlen : ((List.insertionSort (fun a b => a.col ≤ b.col) cand.row.seats)).length
      = cand.row.seats.length := (List.perm_insertionSort _ _).length_eq
  have hwl : cand.seats.length = count.toNat := by
    rw [hwin]
    exact windowAt_length _ i count.toNat (by omega)
  subst hseats
  refine ⟨hwl, ?_, ?_, ?_⟩
  · intro t ht
    have := hq.1
    rw [allAvailable, List.all_eq_true] at this
    have := this t (hwin ▸ ht)
    simpa using this
  · exact (consecutiveCols_chain cand.seats).mp (hwin ▸ hq.2)
  · have hchain := (consecutiveCols_chain cand.seats).mp (hwin ▸ hq.2)
    exact hchain.imp (fun h => by omega)

theorem adjacent_result_shape_witness :
    [seatA, seatB].length = (2 : ℤ).toNat ∧
      (∀ t ∈ [seatA, seatB], t.status = SeatStatus.available) ∧
      List.Chain' (fun a b => b.col = a.col + 1) [seatA, seatB] ∧
      List.Chain' (fun a b => a.col < b.col) [seatA, seatB] :=
  adjacent_result_shape venueGap 2 [seatA, seatB] (by norm_num) (by norm_num) (by
    have hfc : findConsecutiveInRow rowGap.seats (Int.toNat 2) = [seatA, seatB] := by decide
    have hlen : rowGap.seats.length = 5 := rfl
    simp only [findAdjacentSeats, resultsFor, venueGap, sectGap]
    norm_num [hfc, hlen, List.filterMap_cons, List.insertionSort, List.orderedInsert])

/-- C5: when `findAdjacentSeats` returns seats, they are the seats of a
collected candidate whose score is less than or equal to every candidate's
score, and every candidate discovered earlier in section-major, row-major
iteration order scores strictly higher — i.e. the globally lowest score
wins and ties go to the first-discovered candidate. -/
theorem best_candidate_selection (venue : Venue) (count : ℤ) (res : List Seat)
    (hres : findAdjacentSeats venue count = Except.ok (some res)) :
    ∃ r, r ∈ resultsFor venue count.toNat ∧ res = r.seats ∧
      (∀ q ∈ resultsFor venue count.toNat, r.score ≤ q.score) ∧
      ∃ l1 l2, resultsFor venue count.toNat = l1 ++ r :: l2 ∧
        ∀ q ∈ l1, q.score > r.score := by
  by_cases hrange : count < 2 ∨ count > 8
  · rw [findAdjacentSeats, if_pos hrange] at hres
    simp at hres
  unfold findAdjacentSeats at hres
  rw [if_neg hrange] at hres
  by_cases hz : (resultsFor venue count.toNat).length = 0
  · rw [if_pos hz] at hres
    simp at hres
  rw [if_neg hz] at hres
  simp only [Except.ok.injEq] at hres
  rw [Option.map_eq_some'] at hres
  obtain ⟨cand, hhead, hseats⟩ := hres
  obtain ⟨hmem, hmin, l1, l2, hdec, hfirst⟩ :=
    insertionSort_head_spec (fun a b : AdjacentSeatsResult => a.score ≤ b.score)
      (fun a b => le_total a.score b.score)
      (fun _ _ _ h1 h2 => le_trans h1 h2)
      (resultsFor venue count.toNat) cand hhead
  exact ⟨cand, hmem, hseats.symm, hmin, l1, l2, hdec,
    fun q hq => lt_of_not_le (hfirst q hq)⟩

theorem best_candidate_selection_witness :
    ∃ r, r ∈ resultsFor venueGap (2 : ℤ).toNat ∧ [seatA, seatB] = r.seats ∧
      (∀ q ∈ resultsFor venueGap (2 : ℤ).toNat, r.score ≤ q.score) ∧
      ∃ l1 l2, resultsFor venueGap (2 : ℤ).toNat = l1 ++ r :: l2 ∧
        ∀ q ∈ l1, q.score > r.score :=
  best_candidate_selection venueGap 2 [seatA, seatB] (by
    have hfc : findConsecutiveInRow rowGap.seats (Int.toNat 2) = [seatA, seatB] := by decide
    have hlen : rowGap.seats.length = 5 := rfl
    simp only [findAdjacentSeats, resultsFor, venueGap, sectGap]
    norm_num [hfc, hlen, List.filterMap_cons, List.insertionSort, List.orderedInsert])

/-- C4: both finder operations throw exactly when the requested count lies
outside [2,8]; for a count inside the range `findAdjacentSeats` never
throws and returns `null` precisely when no row of any section contains a
qualifying window of that width, so the invalid-count outcome is distinct
from the not-found outcome. -/
theorem count_validation (venue : Venue) (count : ℤ) (options : FindAdjacentOptions) :
    ((∃ e, findAdjacentSeats venue count = Except.error e) ↔ (count < 2 ∨ count > 8)) ∧
      ((∃ e, findAdjacentSeatsWithPreferences venue count options = Except.error e) ↔
        (count < 2 ∨ count > 8)) ∧
      (2 ≤ count → count ≤ 8 →
        (findAdjacentSeats venue count = Except.ok none ↔
          ∀ sect ∈ venue.sections, ∀ row ∈ sect.rows,
            ¬ hasQualifyingWindow row.seats count.toNat)) := by
  refine ⟨?_, ?_, ?_⟩
  · constructor
    · rintro ⟨e, he⟩
      by_contra hrange
      unfold findAdjacentSeats at he
      rw [if_neg hrange] at he
      by_cases hz : (resultsFor venue count.toNat).length = 0
      · rw [if_pos hz] at he
        simp at he
      · rw [if_neg hz] at he
        simp at he
    · intro hrange
      exact ⟨_, by rw [findAdjacentSeats, if_pos hrange]⟩
  · constructor
    · rintro ⟨e, he⟩
      by_contra hrange
      unfold findAdjacentSeatsWithPreferences at he
      rw [if_neg hrange] at he
      by_cases hz : (resultsForWithPrefs venue count.toNat options).length = 0
      · rw [if_pos hz] at he
        simp at he
      · rw [if_neg hz] at he
        simp at he
    · intro hrange
      exact ⟨_, by rw [findAdjacentSeatsWithPreferences, if_pos hrange]⟩
  · intro h2 h8
    have hrange : ¬ (count < 2 ∨ count > 8) := by omega
    have hiff : resultsFor venue count.toNat = [] ↔
        ∀ sect ∈ venue.sections, ∀ row ∈ sect.rows,
          ¬ hasQualifyingWindow row.seats count.toNat := by
      constructor
      · intro hnil sect hsect row hrow hhas
        obtain ⟨i, hb, hq⟩ := hhas
        have hne : findConsecutiveInRow row.seats count.toNat ≠ [] :=
          (findConsecutiveInRow_ne_nil_iff _ _ (by omega)).mpr ⟨i, hb, hq⟩
        have hmem : (⟨findConsecutiveInRow row.seats count.toNat, sect, row,
            windowScore (findConsecutiveInRow row.seats count.toNat) count.toNat⟩ :
              AdjacentSeatsResult) ∈ resultsFor venue count.toNat := by
          unfold resultsFor
          rw [List.mem_flatMap]
          refine ⟨sect, hsect, ?_⟩
          rw [List.mem_filterMap]
          refine ⟨row, hrow, ?_⟩
          have hlen : ¬ row.seats.length < count.toNat := by omega
          have hpos : (findConsecutiveInRow row.seats count.toNat).length > 0 :=
            List.length_pos.mpr hne
          show (if row.seats.length < count.toNat then none else _) = _
          rw [if_neg hlen]
          show (if (findConsecutiveInRow row.seats count.toNat).length > 0 then _
            else none) = _
          rw [if_pos hpos]
        rw [hnil] at hmem
        exact absurd hmem (List.not_mem_nil _)
      · intro hall
        rw [List.eq_nil_iff_forall_not_mem]
        intro r hr
        obtain ⟨hsect, hrow, hle, hfc, hne, _⟩ := mem_resultsFor hr
        have hhas := (findConsecutiveInRow_ne_nil_iff r.row.seats count.toNat
          (by omega)).mp (hfc ▸ hne)
        exact hall r.sect hsect r.row hrow hhas
    unfold findAdjacentSeats
    rw [if_neg hrange]
    by_cases hz : (resultsFor venue count.toNat).length = 0
    · rw [if_pos hz]
      simp only [Except.ok.injEq]
      constructor
      · intro _
        exact hiff.mp (List.length_eq_zero.mp hz)
      · intro _
        trivial
    · rw [if_neg hz]
      constructor
      · intro he
        simp only [Except.ok.injEq, Option.map_eq_none'] at he
        rw [List.head?_eq_none_iff] at he
        have : (resultsFor venue count.toNat).length = 0 := by
          have := congrArg List.length he
          simpa [(List.perm_insertionSort _ _).length_eq] using this
        exact absurd this hz
      · intro hall
        exact absurd (hiff.mpr hall) (fun hnil => hz (by rw [hnil]; rfl))

theorem count_validation_witness :
    ((∃ e, findAdjacentSeats venueGap 1 = Except.error e) ↔ ((1 : ℤ) < 2 ∨ (1 : ℤ) > 8)) ∧
      ((∃ e, findAdjacentSeatsWithPreferences venueGap 1 ⟨none, none, false⟩ = Except.error e) ↔
        ((1 : ℤ) < 2 ∨ (1 : ℤ) > 8)) ∧
      (2 ≤ (1 : ℤ) → (1 : ℤ) ≤ 8 →
        (findAdjacentSeats venueGap 1 = Except.ok none ↔
          ∀ sect ∈ venueGap.sections, ∀ row ∈ sect.rows,
            ¬ hasQualifyingWindow row.seats (1 : ℤ).toNat)) :=
  count_validation venueGap 1 ⟨none, none, false⟩

/-- C2 counterexample: in a single row holding two qualifying width-2
windows — cols 1–2 with mean tier 5 and cols 4–5 with mean tier 1 — the
candidate kept for the row is the leftmost window (cols 1–2), even though
the other qualifying window in the same row scores strictly lower. -/
theorem row_candidate_counterexample :
    (resultsFor venueGap 2).map AdjacentSeatsResult.seats = [[seatA, seatB]] ∧
      qualifies (List.insertionSort (fun a b => a.col ≤ b.col) rowGap.seats) 2 3 = true ∧
      windowAt (List.insertionSort (fun a b => a.col ≤ b.col) rowGap.seats) 3 2 =
        [seatD, seatE] ∧
      windowScore [seatD, seatE] 2 < windowScore [seatA, seatB] 2 := by
  refine ⟨?_, by decide, by decide, ?_⟩
  · have hfc : findConsecutiveInRow rowGap.seats 2 = [seatA, seatB] := by decide
    have hlen : rowGap.seats.length = 5 := rfl
    simp only [resultsFor, venueGap, sectGap]
    norm_num [hfc, hlen, List.filterMap_cons]
  · norm_num [windowScore, seatA, seatB, seatD, seatE]

/-- C2 amended: the candidate kept for a row is the leftmost qualifying
window of its col-sorted seats — the window at the least starting index
that is all-available with consecutive cols — regardless of how other
qualifying windows in the row score. -/
theorem row_candidate_leftmost (venue : Venue) (count : ℕ) (r : AdjacentSeatsResult)
    (hr : r ∈ resultsFor venue count) :
    ∃ i, r.seats = windowAt (List.insertionSort (fun a b => a.col ≤ b.col) r.row.seats) i count ∧
      qualifies (List.insertionSort (fun a b => a.col ≤ b.col) r.row.seats) count i = true ∧
      ∀ j < i,
        qualifies (List.insertionSort (fun a b => a.col ≤ b.col) r.row.seats) count j = false := by
  obtain ⟨_, _, _, hfc, hne, _⟩ := mem_resultsFor hr
  obtain ⟨i, hwin, hq, _, hfirst⟩ := findConsecutiveInRow_spec _ count _ hfc.symm hne
  exact ⟨i, hwin, hq, hfirst⟩

theorem row_candidate_leftmost_witness :
    ∃ i, resGapEx.seats =
        windowAt (List.insertionSort (fun a b => a.col ≤ b.col) resGapEx.row.seats) i 2 ∧
      qualifies (List.insertionSort (fun a b => a.col ≤ b.col) resGapEx.row.seats) 2 i = true ∧
      ∀ j < i,
        qualifies (List.insertionSort (fun a b => a.col ≤ b.col) resGapEx.row.seats) 2 j = false :=
  row_candidate_leftmost venueGap 2 resGapEx (by
    have hfc : findConsecutiveInRow rowGap.seats 2 = [seatA, seatB] := by decide
    have hlen : rowGap.seats.length = 5 := rfl
    simp only [resultsFor, venueGap]
    norm_num [hfc, hlen, List.filterMap_cons, resGapEx]
    exact ⟨rowGap, by decide, by decide, by rw [hfc]; decide, hfc, rfl, by rw [hfc]⟩)

/-- C7: with only `preferCenter` set, every collected candidate's score is
the base mean-tier score plus 0.1 × |windowCenter − rowCenter|, where
`windowCenter` is the midpoint of the window's first and last cols and
`rowCenter` is the row's seat count divided by 2 (a count, not a
coordinate). -/
theorem prefer_center_penalty (venue : Venue) (count : ℕ) (r : AdjacentSeatsResult)
    (hr : r ∈ resultsForWithPrefs venue count ⟨none, none, true⟩) :
    ∃ firstSeat rest lastSeat,
      r.seats = firstSeat :: rest ∧ r.seats.getLast? = some lastSeat ∧
      r.score = windowScore r.seats count +
        |((firstSeat.col : ℚ) + (lastSeat.col : ℚ)) / 2 -
          (r.row.seats.length : ℚ) / 2| * (1 / 10) := by
  unfold resultsForWithPrefs at hr
  rw [List.mem_flatMap] at hr
  obtain ⟨sect, hsect, hr⟩ := hr
  rw [if_neg (by simp [sectionPrefActive])] at hr
  rw [List.mem_filterMap] at hr
  obtain ⟨row, hrow, hf⟩ := hr
  by_cases hlen : row.seats.length < count
  · rw [if_pos hlen] at hf
    exact absurd hf (by simp)
  rw [if_neg hlen] at hf
  simp only at hf
  cases hcs : findConsecutiveInRow row.seats count with
  | nil =>
    rw [hcs] at hf
    simp at hf
  | cons f rest =>
    rw [hcs] at hf
    cases hlast : (f :: rest).getLast? with
    | none => simp at hlast
    | some lastSeat =>
      rw [hlast] at hf
      have htier : tierPrefActive ⟨none, none, true⟩ = false := by
        simp [tierPrefActive]
      rw [htier] at hf
      simp only [Bool.false_eq_true, if_false, if_true] at hf
      obtain rfl := Option.some.inj hf
      exact ⟨f, rest, lastSeat, rfl, hlast, rfl⟩

theorem prefer_center_penalty_witness :
    ∃ firstSeat rest lastSeat,
      resCenterEx.seats = firstSeat :: rest ∧
      resCenterEx.seats.getLast? = some lastSeat ∧
      resCenterEx.score = windowScore resCenterEx.seats 2 +
        |((firstSeat.col : ℚ) + (lastSeat.col : ℚ)) / 2 -
          (resCenterEx.row.seats.length : ℚ) / 2| * (1 / 10) :=
  prefer_center_penalty venueGap 2 resCenterEx (by
    have hfc : findConsecutiveInRow rowGap.seats 2 = [seatA, seatB] := by decide
    have hlen : rowGap.seats.length = 5 := rfl
    simp only [resultsForWithPrefs, venueGap]
    norm_num [hfc, hlen, sectionPrefActive, tierPrefActive, sectGap, List.filterMap_cons,
      resCenterEx])

/-! ## Spatial navigator: helper lemmas -/

/-- The `reduce` pick-closer fold returns the first element of the row
attaining the minimal distance to `x0`. -/
theorem foldl_pickCloser_spec (x0 : ℚ) :
    ∀ (t : List Seat) (h : Seat),
      t.foldl (pickCloser x0) h ∈ h :: t ∧
      (∀ u ∈ h :: t, |(t.foldl (pickCloser x0) h).x - x0| ≤ |u.x - x0|) ∧
      ∃ l1 l2, h :: t = l1 ++ (t.foldl (pickCloser x0) h) :: l2 ∧
        ∀ u ∈ l1, |(t.foldl (pickCloser x0) h).x - x0| < |u.x - x0|
  | [], h => by
    refine ⟨by simp, ?_, [], [], rfl, by simp⟩
    intro u hu
    simp only [List.foldl_nil]
    simp only [List.mem_singleton] at hu
    rw [hu]
  | a :: t', h => by
    rw [List.foldl_cons]
    by_cases hlt : |a.x - x0| < |h.x - x0|
    · have hpc : pickCloser x0 h a = a := by unfold pickCloser; rw [if_pos hlt]
      rw [hpc]
      obtain ⟨hmem, hmin, l1, l2, hdec, hfirst⟩ := foldl_pickCloser_spec x0 t' a
      refine ⟨List.mem_cons_of_mem h hmem, ?_, h :: l1, l2, ?_, ?_⟩
      · intro u hu
        rcases List.mem_cons.mp hu with rfl | hu'
        · exact le_of_lt (lt_of_le_of_lt (hmin a (List.mem_cons_self a t')) hlt)
        · exact hmin u hu'
      · rw [List.cons_append, ← hdec]
      · intro u hu
        rcases List.mem_cons.mp hu with rfl | hu'
        · exact lt_of_le_of_lt (hmin a (List.mem_cons_self a t')) hlt
        · exact hfirst u hu'
    · have hpc : pickCloser x0 h a = h := by unfold pickCloser; rw [if_neg hlt]
      rw [hpc]
      obtain ⟨hmem, hmin, l1, l2, hdec, hfirst⟩ := foldl_pickCloser_spec x0 t' h
      have hge : |h.x - x0| ≤ |a.x - x0| := le_of_not_lt hlt
      refine ⟨?_, ?_, ?_⟩
      · rcases List.mem_cons.mp hmem with hr | hr
        · rw [hr]
          exact List.mem_cons_self h (a :: t')
        · exact List.mem_cons_of_mem h (List.mem_cons_of_mem a hr)
      · intro u hu
        rcases List.mem_cons.mp hu with rfl | hu'
        · exact hmin u (List.mem_cons_self u t')
        · rcases List.mem_cons.mp hu' with rfl | hu''
          · exact le_trans (hmin h (List.mem_cons_self h t')) hge
          · exact hmin u (List.mem_cons_of_mem h hu'')
      · cases l1 with
        | nil =>
          simp only [List.nil_append] at hdec
          obtain ⟨hh, ht'⟩ := List.cons.inj hdec
          refine ⟨[], a :: t', ?_, by simp⟩
          rw [List.nil_append, ← hh]
        | cons b m =>
          simp only [List.cons_append] at hdec
          obtain ⟨hh, ht'⟩ := List.cons.inj hdec
          have hb := hfirst b (List.mem_cons_self b m)
          rw [← hh] at hb
          refine ⟨h :: a :: m, l2, ?_, ?_⟩
          · exact congrArg (fun z => h :: a :: z) ht'
          · intro u hu
            rcases List.mem_cons.mp hu with rfl | hu'
            · exact hb
            · rcases List.mem_cons.mp hu' with rfl | hu''
              · exact lt_of_lt_of_le hb hge
              · exact hfirst u (List.mem_cons_of_mem b hu'')

/-- If every element of a prefix fails the predicate and `a` satisfies it,
`find?` over the assembled list returns `a`. -/
theorem find?_first_of_decomp {α : Type} (p : α → Bool) :
    ∀ (l1 : List α) (a : α) (l2 : List α),
      (∀ x ∈ l1, p x = false) → p a = true → (l1 ++ a :: l2).find? p = some a
  | [], a, l2 => by
    intro _ hp
    simp [List.find?_cons_of_pos _ hp]
  | b :: l1, a, l2 => by
    intro hfail hp
    rw [List.cons_append, List.find?_cons_of_neg _ (by simp [hfail b (List.mem_cons_self b l1)])]
    exact find?_first_of_decomp p l1 a l2 (fun x hx => hfail x (List.mem_cons_of_mem b hx)) hp

/-- `reduceClosest` and the spec-side `firstNearestByX` agree: the reduce
picks exactly the first seat of the row at minimal distance to `x0`. -/
theorem firstNearestByX_eq_reduceClosest (x0 : ℚ) (row : List Seat) (r : Seat)
    (h : reduceClosest x0 row = some r) : firstNearestByX x0 row = some r := by
  cases row with
  | nil => simp [reduceClosest] at h
  | cons hd t =>
    rw [reduceClosest] at h
    obtain rfl := Option.some.inj h
    obtain ⟨hmem, hmin, l1, l2, hdec, hfirst⟩ := foldl_pickCloser_spec x0 t hd
    unfold firstNearestByX
    rw [hdec]
    apply find?_first_of_decomp
    · intro u hu
      rw [List.all_eq_false]
      refine ⟨t.foldl (pickCloser x0) hd, ?_, ?_⟩
      · exact List.mem_append_right l1 (List.mem_cons_self _ _)
      · simp only [decide_eq_true_eq, Bool.not_eq_true]
        exact not_le.mpr (hfirst u hu)
    · rw [List.all_eq_true]
      intro u hu
      rw [← hdec] at hu
      simp only [decide_eq_true_eq]
      exact hmin u hu

/-- `findIdx?` over a list of seats with pairwise-distinct ids finds the
position of a member seat, and that position holds the seat itself. -/
theorem findIdx?_id_unique (s : Seat) :
    ∀ (l : List Seat), (l.map Seat.id).Nodup → s ∈ l →
      ∃ i, l.findIdx? (fun t => t.id == s.id) = some i ∧ i < l.length ∧ l[i]? = some s
  | [], _, hs => absurd hs (List.not_mem_nil s)
  | a :: l, hnd, hs => by
    by_cases heq : a = s
    · subst heq
      refine ⟨0, ?_, by simp, by simp⟩
      rw [List.findIdx?_cons]
      simp
    · have hne : (a.id == s.id) = false := by
        rw [beq_eq_false_iff_ne]
        intro hid
        rcases List.mem_cons.mp hs with rfl | hs'
        · exact heq rfl
        · rw [List.map_cons, List.nodup_cons] at hnd
          exact hnd.1 (hid ▸ List.mem_map_of_mem Seat.id hs')
      have hs' : s ∈ l := by
        rcases List.mem_cons.mp hs with rfl | hs'
        · exact absurd rfl heq
        · exact hs'
      obtain ⟨i, hfind, hlt, hget⟩ :=
        findIdx?_id_unique s l (by rw [List.map_cons, List.nodup_cons] at hnd; exact hnd.2) hs'
      refine ⟨i + 1, ?_, by simpa using hlt, by simpa using hget⟩
      rw [List.findIdx?_cons, hne]
      simp [hfind]

/-- `findIdx?` over a duplicate-free list of rationals finds the position
of a member value. -/
theorem findIdx?_rat_unique (y0 : ℚ) :
    ∀ (l : List ℚ), l.Nodup → y0 ∈ l →
      ∃ i, l.findIdx? (fun yy => decide (yy = y0)) = some i ∧ i < l.length ∧ l[i]? = some y0
  | [], _, hs => absurd hs (List.not_mem_nil y0)
  | a :: l, hnd, hs => by
    by_cases heq : a = y0
    · subst heq
      refine ⟨0, ?_, by simp, by simp⟩
      rw [List.findIdx?_cons]
      simp
    · have hy : y0 ∈ l := by
        rcases List.mem_cons.mp hs with rfl | hs'
        · exact absurd rfl heq
        · exact hs'
      obtain ⟨i, hfind, hlt, hget⟩ :=
        findIdx?_rat_unique y0 l (List.nodup_cons.mp hnd).2 hy
      refine ⟨i + 1, ?_, by simpa using hlt, by simpa using hget⟩
      rw [List.findIdx?_cons]
      simp only [decide_eq_true_eq]
      rw [if_neg heq]
      simp [hfind]

theorem mem_flatten_of_mem_gridRow {v : Venue} {y : ℚ} {u : Seat}
    (h : u ∈ gridRow v y) : u ∈ flattenSeats v := by
  unfold gridRow at h
  have hmem := (List.perm_insertionSort (fun a b : Seat => a.x ≤ b.x) _).subset h
  exact List.mem_of_mem_filter hmem

theorem mem_gridRow_self {v : Venue} {s : Seat} (h : s ∈ flattenSeats v) :
    s ∈ gridRow v s.y := by
  unfold gridRow
  rw [(List.perm_insertionSort _ _).mem_iff]
  exact List.mem_filter.mpr ⟨h, by simp⟩

theorem gridRow_ids_nodup {v : Venue}
    (hnd : ((flattenSeats v).map Seat.id).Nodup) (y : ℚ) :
    ((gridRow v y).map Seat.id).Nodup := by
  unfold gridRow
  rw [((List.perm_insertionSort _ _).map Seat.id).nodup_iff]
  exact hnd.sublist ((List.filter_sublist _).map Seat.id)

theorem y_mem_sortedYCoords {v : Venue} {s : Seat} (h : s ∈ flattenSeats v) :
    s.y ∈ sortedYCoords v := by
  unfold sortedYCoords
  rw [(List.perm_insertionSort _ _).mem_iff, List.mem_dedup]
  exact List.mem_map_of_mem (·.y) h

theorem sortedYCoords_nodup (v : Venue) : (sortedYCoords v).Nodup := by
  unfold sortedYCoords
  rw [(List.perm_insertionSort _ _).nodup_iff]
  exact List.nodup_dedup _

theorem gridRow_ne_nil {v : Venue} {y : ℚ} (h : y ∈ sortedYCoords v) :
    gridRow v y ≠ [] := by
  unfold sortedYCoords at h
  rw [(List.perm_insertionSort _ _).mem_iff, List.mem_dedup, List.mem_map] at h
  obtain ⟨u, hu, huy⟩ := h
  have hmem : u ∈ gridRow v y := by
    unfold gridRow
    rw [(List.perm_insertionSort _ _).mem_iff]
    exact List.mem_filter.mpr ⟨hu, by simp [huy]⟩
  exact List.ne_nil_of_mem hmem

theorem enumFrom_filter_id (t : Seat) :
    ∀ (l : List Seat) (n : ℕ), (l.map Seat.id).Nodup → t ∈ l →
      (l.enumFrom n).filter (fun p => p.2.id == t.id) = [(n + l.indexOf t, t)]
  | [], _, _, ht => absurd ht (List.not_mem_nil t)
  | a :: l, n, hnd, ht => by
    rw [List.enumFrom_cons, List.filter_cons]
    rw [List.map_cons, List.nodup_cons] at hnd
    by_cases heq : a = t
    · subst heq
      rw [if_pos (by simp)]
      have hnone : (l.enumFrom (n + 1)).filter (fun p => p.2.id == a.id) = [] := by
        rw [List.filter_eq_nil_iff]
        intro p hp
        have hp2 : p.2 ∈ l := by
          have hm := List.mem_map_of_mem Prod.snd hp
          rw [List.enumFrom_map_snd] at hm
          exact hm
        simp only [Bool.not_eq_true, beq_eq_false_iff_ne, ne_eq]
        intro hbeq
        exact hnd.1 (hbeq ▸ List.mem_map_of_mem Seat.id hp2)
      rw [hnone, List.indexOf_cons_self]
      simp
    · have hid : (a.id == t.id) = false := by
        rw [beq_eq_false_iff_ne]
        intro hide
        rcases List.mem_cons.mp ht with rfl | ht'
        · exact heq rfl
        · exact hnd.1 (hide ▸ List.mem_map_of_mem Seat.id ht')
      rw [if_neg (by simp [hid])]
      have ht' : t ∈ l := by
        rcases List.mem_cons.mp ht with rfl | ht'
        · exact absurd rfl heq
        · exact ht'
      rw [enumFrom_filter_id t l (n + 1) hnd.2 ht']
      rw [List.indexOf_cons_ne l (fun hh => heq hh)]
      have harith : n + 1 + l.indexOf t = n + (l.indexOf t).succ := by omega
      rw [harith]

theorem seatMapGet_eq {v : Venue} {t : Seat}
    (hnd : ((flattenSeats v).map Seat.id).Nodup) (ht : t ∈ flattenSeats v) :
    seatMapGet v t.id = some (t, (flattenSeats v).indexOf t) := by
  unfold seatMapGet
  rw [List.enum_eq_enumFrom, enumFrom_filter_id t (flattenSeats v) 0 hnd ht]
  simp

theorem idxOrFocused_eq {v : Venue} {t : Seat} (fi : ℕ)
    (hnd : ((flattenSeats v).map Seat.id).Nodup) (ht : t ∈ flattenSeats v) :
    idxOrFocused v t.id fi = flattenIndexOf v t := by
  unfold idxOrFocused flattenIndexOf
  rw [seatMapGet_eq hnd ht]

/-- C6: for every seat present in the seat index (under the data-model
invariant that seat ids are unique), the navigator returns the
flattening-order index of the seat the spec designates: the previous/next
seat of the same pixel-row in ascending-`x` order with wraparound for
`left`/`right` (modular index arithmetic), and for `up`/`down` the
adjacent pixel-row in ascending `sortedYCoords` order with wraparound,
choosing within the destination row the first seat (in scan order) whose
`x` is nearest to the current seat's `x`. -/
theorem findNearestSeat_spec (v : Venue) (fi : ℕ) (s : Seat) (d : Dir)
    (hnd : ((flattenSeats v).map Seat.id).Nodup) (hs : s ∈ flattenSeats v) :
    ∃ t, specNavTarget v s d = some t ∧
      findNearestSeat v fi s d = flattenIndexOf v t := by
  have hrow_mem : s ∈ gridRow v s.y := mem_gridRow_self hs
  have hrow_nd := gridRow_ids_nodup hnd s.y
  obtain ⟨i, hfind, hilt, hget⟩ := findIdx?_id_unique s (gridRow v s.y) hrow_nd hrow_mem
  have hjs : jsFindIndex (fun t => t.id == s.id) (gridRow v s.y) = (i : ℤ) := by
    unfold jsFindIndex
    rw [hfind]
  cases d with
  | left =>
    by_cases hzero : i = 0
    · subst hzero
      have hmod : (0 + (gridRow v s.y).length - 1) % (gridRow v s.y).length
          = (gridRow v s.y).length - 1 := by
        rw [Nat.zero_add]
        exact Nat.mod_eq_of_lt (by omega)
      have htlt : (gridRow v s.y).length - 1 < (gridRow v s.y).length := by omega
      refine ⟨(gridRow v s.y)[(gridRow v s.y).length - 1], ?_, ?_⟩
      · simp only [specNavTarget]
        rw [hfind, Option.some_bind, hmod, List.getElem?_eq_getElem htlt]
      · simp only [findNearestSeat]
        rw [hjs, if_neg (by omega), if_pos (by omega)]
        rw [List.getLast?_eq_getElem?, List.getElem?_eq_getElem htlt]
        exact idxOrFocused_eq fi hnd
          (mem_flatten_of_mem_gridRow (List.getElem_mem _))
    · have hmod : (i + (gridRow v s.y).length - 1) % (gridRow v s.y).length
          = i - 1 := by
        have he : i + (gridRow v s.y).length - 1
            = (gridRow v s.y).length + (i - 1) := by omega
        rw [he, Nat.add_mod_left]
        exact Nat.mod_eq_of_lt (by omega)
      have htlt : i - 1 < (gridRow v s.y).length := by omega
      refine ⟨(gridRow v s.y)[i - 1], ?_, ?_⟩
      · simp only [specNavTarget]
        rw [hfind, Option.some_bind, hmod, List.getElem?_eq_getElem htlt]
      · simp only [findNearestSeat]
        rw [hjs, if_pos (by omega)]
        have hcast : ((i : ℤ) - 1).toNat = i - 1 := by omega
        rw [hcast, List.getElem?_eq_getElem htlt]
        exact idxOrFocused_eq fi hnd
          (mem_flatten_of_mem_gridRow (List.getElem_mem _))
  | right =>
    by_cases hend : i + 1 < (gridRow v s.y).length
    · have hmod : (i + 1) % (gridRow v s.y).length = i + 1 := Nat.mod_eq_of_lt hend
      refine ⟨(gridRow v s.y)[i + 1], ?_, ?_⟩
      · simp only [specNavTarget]
        rw [hfind, Option.some_bind, hmod, List.getElem?_eq_getElem hend]
      · simp only [findNearestSeat]
        rw [hjs, if_pos (by omega)]
        have hcast : ((i : ℤ) + 1).toNat = i + 1 := by omega
        rw [hcast, List.getElem?_eq_getElem hend]
        exact idxOrFocused_eq fi hnd
          (mem_flatten_of_mem_gridRow (List.getElem_mem _))
    · have hieq : i + 1 = (gridRow v s.y).length := by omega
      have hmod : (i + 1) % (gridRow v s.y).length = 0 := by
        rw [hieq, Nat.mod_self]
      have hzlt : 0 < (gridRow v s.y).length := by omega
      refine ⟨(gridRow v s.y)[0], ?_, ?_⟩
      · simp only [specNavTarget]
        rw [hfind, Option.some_bind, hmod, List.getElem?_eq_getElem hzlt]
      · simp only [findNearestSeat]
        rw [hjs, if_neg (by omega), if_pos (by omega)]
        rw [List.head?_eq_getElem?, List.getElem?_eq_getElem hzlt]
        exact idxOrFocused_eq fi hnd
          (mem_flatten_of_mem_gridRow (List.getElem_mem _))
  | up =>
    have hys_nd := sortedYCoords_nodup v
    have hymem := y_mem_sortedYCoords hs
    obtain ⟨j, hyfind, hjlt, hyget⟩ :=
      findIdx?_rat_unique s.y (sortedYCoords v) hys_nd hymem
    have hyjs : jsFindIndex (fun yy => decide (yy = s.y)) (sortedYCoords v) = (j : ℤ) := by
      unfold jsFindIndex
      rw [hyfind]
    by_cases hzero : j = 0
    · subst hzero
      have hmod : (0 + (sortedYCoords v).length - 1) % (sortedYCoords v).length
          = (sortedYCoords v).length - 1 := by
        rw [Nat.zero_add]
        exact Nat.mod_eq_of_lt (by omega)
      have htlt : (sortedYCoords v).length - 1 < (sortedYCoords v).length := by omega
      have hymem' : (sortedYCoords v)[(sortedYCoords v).length - 1] ∈ sortedYCoords v :=
        List.getElem_mem _
      have hne := gridRow_ne_nil hymem'
      cases hdest : gridRow v ((sortedYCoords v)[(sortedYCoords v).length - 1]) with
      | nil => exact absurd hdest hne
      | cons hd tl =>
        have hred : reduceClosest s.x
            (gridRow v ((sortedYCoords v)[(sortedYCoords v).length - 1]))
            = some (tl.foldl (pickCloser s.x) hd) := by
          rw [hdest]
          rfl
        have hrmem : tl.foldl (pickCloser s.x) hd ∈ flattenSeats v := by
          apply mem_flatten_of_mem_gridRow (y := (sortedYCoords v)[(sortedYCoords v).length - 1])
          rw [hdest]
          exact (foldl_pickCloser_spec s.x tl hd).1
        refine ⟨tl.foldl (pickCloser s.x) hd, ?_, ?_⟩
        · simp only [specNavTarget]
          rw [hyfind, Option.some_bind, hmod, List.getElem?_eq_getElem htlt,
            Option.some_bind]
          exact firstNearestByX_eq_reduceClosest s.x _ _ hred
        · simp only [findNearestSeat]
          rw [hyjs, if_neg (by omega), if_pos (by omega)]
          rw [List.getLast?_eq_getElem?, List.getElem?_eq_getElem htlt]
          show (match reduceClosest s.x
              (gridRow v ((sortedYCoords v)[(sortedYCoords v).length - 1])) with
            | some closestSeat => idxOrFocused v closestSeat.id fi
            | none => fi) = flattenIndexOf v (tl.foldl (pickCloser s.x) hd)
          rw [hred]
          exact idxOrFocused_eq fi hnd hrmem
    · have hmod : (j + (sortedYCoords v).length - 1) % (sortedYCoords v).length
          = j - 1 := by
        have he : j + (sortedYCoords v).length - 1
            = (sortedYCoords v).length + (j - 1) := by omega
        rw [he, Nat.add_mod_left]
        exact Nat.mod_eq_of_lt (by omega)
      have htlt : j - 1 < (sortedYCoords v).length := by omega
      have hymem' : (sortedYCoords v)[j - 1] ∈ sortedYCoords v := List.getElem_mem _
      have hne := gridRow_ne_nil hymem'
      cases hdest : gridRow v ((sortedYCoords v)[j - 1]) with
      | nil => exact absurd hdest hne
      | cons hd tl =>
        have hred : reduceClosest s.x (gridRow v ((sortedYCoords v)[j - 1]))
            = some (tl.foldl (pickCloser s.x) hd) := by
          rw [hdest]
          rfl
        have hrmem : tl.foldl (pickCloser s.x) hd ∈ flattenSeats v := by
          apply mem_flatten_of_mem_gridRow (y := (sortedYCoords v)[j - 1])
          rw [hdest]
          exact (foldl_pickCloser_spec s.x tl hd).1
        refine ⟨tl.foldl (pickCloser s.x) hd, ?_, ?_⟩
        · simp only [specNavTarget]
          rw [hyfind, Option.some_bind, hmod, List.getElem?_eq_getElem htlt,
            Option.some_bind]
          exact firstNearestByX_eq_reduceClosest s.x _ _ hred
        · simp only [findNearestSeat]
          rw [hyjs, if_pos (by omega)]
          have hcast : ((j : ℤ) - 1).toNat = j - 1 := by omega
          rw [hcast, List.getElem?_eq_getElem htlt]
          show (match reduceClosest s.x (gridRow v ((sortedYCoords v)[j - 1])) with
            | some closestSeat => idxOrFocused v closestSeat.id fi
            | none => fi) = flattenIndexOf v (tl.foldl (pickCloser s.x) hd)
          rw [hred]
          exact idxOrFocused_eq fi hnd hrmem
  | down =>
    have hys_nd := sortedYCoords_nodup v
    have hymem := y_mem_sortedYCoords hs
    obtain ⟨j, hyfind, hjlt, hyget⟩ :=
      findIdx?_rat_unique s.y (sortedYCoords v) hys_nd hymem
    have hyjs : jsFindIndex (fun yy => decide (yy = s.y)) (sortedYCoords v) = (j : ℤ) := by
      unfold jsFindIndex
      rw [hyfind]
    by_cases hend : j + 1 < (sortedYCoords v).length
    · have hmod : (j + 1) % (sortedYCoords v).length = j + 1 := Nat.mod_eq_of_lt hend
      have hymem' : (sortedYCoords v)[j + 1] ∈ sortedYCoords v := List.getElem_mem _
      have hne := gridRow_ne_nil hymem'
      cases hdest : gridRow v ((sortedYCoords v)[j + 1]) with
      | nil => exact absurd hdest hne
      | cons hd tl =>
        have hred : reduceClosest s.x (gridRow v ((sortedYCoords v)[j + 1]))
            = some (tl.foldl (pickCloser s.x) hd) := by
          rw [hdest]
          rfl
        have hrmem : tl.foldl (pickCloser s.x) hd ∈ flattenSeats v := by
          apply mem_flatten_of_mem_gridRow (y := (sortedYCoords v)[j + 1])
          rw [hdest]
          exact (foldl_pickCloser_spec s.x tl hd).1
        refine ⟨tl.foldl (pickCloser s.x) hd, ?_, ?_⟩
        · simp only [specNavTarget]
          rw [hyfind, Option.some_bind, hmod, List.getElem?_eq_getElem hend,
            Option.some_bind]
          exact firstNearestByX_eq_reduceClosest s.x _ _ hred
        · simp only [findNearestSeat]
          rw [hyjs, if_pos (by omega)]
          have hcast : ((j : ℤ) + 1).toNat = j + 1 := by omega
          rw [hcast, List.getElem?_eq_getElem hend]
          show (match reduceClosest s.x (gridRow v ((sortedYCoords v)[j + 1])) with
            | some closestSeat => idxOrFocused v closestSeat.id fi
            | none => fi) = flattenIndexOf v (tl.foldl (pickCloser s.x) hd)
          rw [hred]
          exact idxOrFocused_eq fi hnd hrmem
    · have hjeq : j + 1 = (sortedYCoords v).length := by omega
      have hmod : (j + 1) % (sortedYCoords v).length = 0 := by
        rw [hjeq, Nat.mod_self]
      have hzlt : 0 < (sortedYCoords v).length := by omega
      have hymem' : (sortedYCoords v)[0] ∈ sortedYCoords v := List.getElem_mem _
      have hne := gridRow_ne_nil hymem'
      cases hdest : gridRow v ((sortedYCoords v)[0]) with
      | nil => exact absurd hdest hne
      | cons hd tl =>
        have hred : reduceClosest s.x (gridRow v ((sortedYCoords v)[0]))
            = some (tl.foldl (pickCloser s.x) hd) := by
          rw [hdest]
          rfl
        have hrmem : tl.foldl (pickCloser s.x) hd ∈ flattenSeats v := by
          apply mem_flatten_of_mem_gridRow (y := (sortedYCoords v)[0])
          rw [hdest]
          exact (foldl_pickCloser_spec s.x tl hd).1
        refine ⟨tl.foldl (pickCloser s.x) hd, ?_, ?_⟩
        · simp only [specNavTarget]
          rw [hyfind, Option.some_bind, hmod, List.getElem?_eq_getElem hzlt,
            Option.some_bind]
          exact firstNearestByX_eq_reduceClosest s.x _ _ hred
        · simp only [findNearestSeat]
          rw [hyjs, if_neg (by omega), if_pos (by omega)]
          rw [List.head?_eq_getElem?, List.getElem?_eq_getElem hzlt]
          show (match reduceClosest s.x (gridRow v ((sortedYCoords v)[0])) with
            | some closestSeat => idxOrFocused v closestSeat.id fi
            | none => fi) = flattenIndexOf v (tl.foldl (pickCloser s.x) hd)
          rw [hred]
          exact idxOrFocused_eq fi hnd hrmem

theorem findNearestSeat_spec_witness :
    ∃ t, specNavTarget venueNav seatN2 Dir.right = some t ∧
      findNearestSeat venueNav 0 seatN2 Dir.right = flattenIndexOf venueNav t :=
  findNearestSeat_spec venueNav 0 seatN2 Dir.right (by decide) (by decide)
